import Mathlib

/-!
# Verification of the link extractor (`src/extractor.rs`)

This file gives a shallow embedding of the `extractor` module of the
repository: the sub-path expansion `get_sub_paths_from_path`, the
set-insertion helper `add_link_to_set_of_links`, and the driver function
`get_links`, together with a model of the parts of the external `url`
crate (WHATWG URL parsing, joining, `domain()`, `to_string()`) that the
extractor relies on.

Conventions of the embedding:
* Rust's `HashSet<String>` is modelled as a `List String` with
  membership-checked insertion, so that list membership is set
  membership and insertion order is deterministic.
* `Url::parse` / `Url::join` return `Result`; these are modelled with
  `Except ParseError`.  The panic of `.unwrap()` on the body text is
  modelled by an `Option` result of `get_links`.
* The regex scan `REGEX.captures_iter` over the body is abstracted as a
  function `captures : String → List String` producing the raw
  `capture[0]` texts (still carrying their surrounding quotes); the
  quote-trimming `trim_matches` of the Rust code is part of the
  embedding.  One alternative of the `LINKFINDER_REGEX` pattern is
  additionally translated literally (`group3Matches`) so that the
  concrete scenario match can be checked against the pattern itself.
-/

set_option autoImplicit false

namespace Extractor

/-! ## Basic character and list-of-character utilities -/

/-- Split a list of characters on a separator character.  Models Rust's
`str::split(sep)`: always returns at least one (possibly empty) piece,
and keeps empty pieces between consecutive separators. -/
def splitOnChar (sep : Char) : List Char → List (List Char)
  | [] => [[]]
  | c :: rest =>
    let r := splitOnChar sep rest
    if c = sep then
      [] :: r
    else
      match r with
      | s :: tl => (c :: s) :: tl
      | [] => [[c]]

/-- A C0 control character or a space, the characters the WHATWG URL
parser strips from both ends of its input. -/
def isC0OrSpace (c : Char) : Bool := c.toNat ≤ 0x20

/-- ASCII tab or newline, removed everywhere in the input by the WHATWG
URL parser. -/
def isTabOrNewline (c : Char) : Bool := c = '\t' ∨ c = '\n' ∨ c = '\r'

/-- Input cleaning performed by the URL parser before any other
processing: trim C0 controls and spaces from both ends, remove tabs and
newlines everywhere. -/
def cleanInput (cs : List Char) : List Char :=
  (((cs.dropWhile isC0OrSpace).reverse.dropWhile isC0OrSpace).reverse).filter
    (fun c => ¬ isTabOrNewline c)

/-- `Vec::join("/")` of Rust, on a list of strings: concatenate the
elements, inserting `/` between consecutive elements. -/
def joinParts : List String → String
  | [] => ""
  | [s] => s
  | s :: rest => s ++ "/" ++ joinParts rest

/-- The non-empty `/`-separated segments of a path string: Rust's
`path.split('/').filter(|s| !s.is_empty())`. -/
def nonEmptySegments (path : String) : List String :=
  ((splitOnChar '/' path.toList).filter (fun cs => cs ≠ [])).map (fun cs => String.mk cs)

/-- `capture[0].trim_matches(|c| c == '\'' || c == '"')`: remove all
leading and trailing single/double quote characters. -/
def trimQuotes (s : String) : String :=
  let p := fun (c : Char) => c = '\'' ∨ c = '"'
  String.mk (((s.toList.dropWhile p).reverse.dropWhile p).reverse)

/-! ## Model of the `url` crate (WHATWG URL standard)

Only the behaviour the extractor exercises is modelled: scheme
detection, authority/host/port parsing for hierarchical URLs, opaque
(cannot-be-a-base) paths for non-special schemes, dot-segment
normalisation, query/fragment splitting, relative-reference resolution
against a base, `domain()` and serialisation.  Simplifications (noted
where relevant): no percent-encoding of path characters, no IDNA, hosts
whose every dot-separated label is numeric are the ones parsed as IPv4,
and backslash is not treated as a slash. -/

/-- A parsed host: a (lower-cased) domain name or an IPv4 address.
Models `url::Host`; `Url::domain()` is `some` exactly on the `domain`
constructor. -/
inductive Host where
  | domain (name : String)
  | ipv4 (a b c d : Nat)
deriving Repr, DecidableEq

/-- A parsed absolute URL.  `host = none` with a path not starting in
`/` corresponds to a cannot-be-a-base URL such as `mailto:x`. -/
structure Url where
  scheme : String
  host : Option Host
  port : Option Nat
  path : String
  query : Option String
  fragment : Option String
deriving Repr, DecidableEq

/-- The errors of `url::ParseError` that the model can produce.
`relativeUrlWithoutBase` is the variant whose `Display` text is exactly
`"relative URL without a base"`. -/
inductive ParseError where
  | relativeUrlWithoutBase
  | emptyHost
  | invalidDomainCharacter
  | invalidIpv4Address
  | invalidPort
  | relativeUrlWithCannotBeABaseBase
deriving Repr, DecidableEq

/-- Models the Rust-side check
`e.to_string().contains("relative URL without a base")`: in the `url`
crate that display string belongs to the `RelativeUrlWithoutBase`
variant and occurs in no other variant's message. -/
def containsRelativeMsg : ParseError → Bool
  | ParseError.relativeUrlWithoutBase => true
  | _ => false

/-- First character admissible in a scheme (ASCII alpha). -/
def isSchemeStart (c : Char) : Bool := c.isAlpha

/-- Character admissible inside a scheme. -/
def isSchemeChar (c : Char) : Bool := c.isAlpha ∨ c.isDigit ∨ c = '+' ∨ c = '-' ∨ c = '.'

/-- Try to split `cs` as `scheme ":" rest`.  Returns the (lower-cased)
scheme and the remainder, or `none` when the input has no valid scheme
(first character not alphabetic, or no `:` terminating a run of scheme
characters). -/
def schemeSplit (cs : List Char) : Option (String × List Char) :=
  match cs with
  | [] => none
  | c :: _ =>
    if isSchemeStart c then
      let pre := cs.takeWhile isSchemeChar
      match cs.dropWhile isSchemeChar with
      | ':' :: rest => some (String.mk (pre.map Char.toLower), rest)
      | _ => none
    else none

/-- The special schemes of the WHATWG standard. -/
def specialSchemes : List String := ["http", "https", "ws", "wss", "ftp", "file"]

/-- Default port of a special scheme; `Url` stores `none` for it. -/
def defaultPort (scheme : String) : Option Nat :=
  if scheme = "http" ∨ scheme = "ws" then some 80
  else if scheme = "https" ∨ scheme = "wss" then some 443
  else if scheme = "ftp" then some 21
  else none

/-- Characters forbidden in a domain host (WHATWG forbidden domain code
points, plus C0 controls). -/
def isForbiddenHostChar (c : Char) : Bool :=
  c.toNat ≤ 0x1F ∨ c = ' ' ∨ c = '#' ∨ c = '/' ∨ c = ':' ∨ c = '<' ∨ c = '>' ∨
  c = '?' ∨ c = '@' ∨ c = '[' ∨ c = '\\' ∨ c = ']' ∨ c = '^' ∨ c = '|' ∨ c = '%'

/-- Decimal value of a digit run. -/
def digitsToNat (cs : List Char) : Nat :=
  cs.foldl (fun n c => n * 10 + (c.toNat - '0'.toNat)) 0

/-- Parse a host string: IPv4 when every dot-separated label is a
non-empty digit run (then exactly four labels, each ≤ 255, are
required), otherwise a lower-cased domain name after rejecting
forbidden characters. -/
def parseHost (cs : List Char) : Except ParseError Host :=
  if cs.any isForbiddenHostChar then
    Except.error ParseError.invalidDomainCharacter
  else
    let labels := splitOnChar '.' cs
    if labels.all (fun l => l ≠ [] ∧ l.all Char.isDigit) then
      match labels with
      | [a, b, c, d] =>
        let va := digitsToNat a
        let vb := digitsToNat b
        let vc := digitsToNat c
        let vd := digitsToNat d
        if va ≤ 255 ∧ vb ≤ 255 ∧ vc ≤ 255 ∧ vd ≤ 255 then
          Except.ok (Host.ipv4 va vb vc vd)
        else
          Except.error ParseError.invalidIpv4Address
      | _ => Except.error ParseError.invalidIpv4Address
    else
      Except.ok (Host.domain (String.mk (cs.map Char.toLower)))

/-- A path-query-fragment split: the fragment follows the first `#`,
the query follows the first `?` before that. -/
structure PQF where
  pathCs : List Char
  query : Option String
  fragment : Option String

/-- Split a path-query-fragment run. -/
def splitPQF (cs : List Char) : PQF :=
  let beforeHash := cs.takeWhile (fun c => c ≠ '#')
  let hashPart := cs.dropWhile (fun c => c ≠ '#')
  let frag : Option String := match hashPart with
    | [] => none
    | _ :: f => some (String.mk f)
  let pathCs := beforeHash.takeWhile (fun c => c ≠ '?')
  let queryPart := beforeHash.dropWhile (fun c => c ≠ '?')
  let query : Option String := match queryPart with
    | [] => none
    | _ :: q => some (String.mk q)
  { pathCs := pathCs, query := query, fragment := frag }

/-- One pass of WHATWG dot-segment removal over a segment list.  `.`
segments are dropped, `..` removes the previous segment; when the final
segment is `.` or `..` an empty segment is kept so the path ends in a
slash. -/
def normSegments : List String → List String → List String
  | acc, [] => acc
  | acc, [s] =>
    if s = "." then acc ++ [""]
    else if s = ".." then acc.dropLast ++ [""]
    else acc ++ [s]
  | acc, s :: rest =>
    if s = "." then normSegments acc rest
    else if s = ".." then normSegments acc.dropLast rest
    else normSegments (acc ++ [s]) rest

/-- Serialise a hierarchical path from its segment list. -/
def serializePath (segs : List String) : String :=
  "/" ++ joinParts segs

/-- Segment list of a hierarchical path string (which starts with `/`):
the pieces of the text after the leading slash. -/
def pathSegsOf (path : String) : List String :=
  (splitOnChar '/' (path.toList.drop 1)).map (fun cs => String.mk cs)

/-- Parse the characters after the `:` separating host and port: an
absent or empty port is `none`, digits are required, the value must fit
in 16 bits, and a default port is normalised to `none`. -/
def parsePort (sch : String) (portCs : List Char) : Except ParseError (Option Nat) :=
  match portCs with
  | [] => Except.ok none
  | _ :: p =>
    if p = [] then Except.ok none
    else if p.all Char.isDigit then
      let v := digitsToNat p
      if v ≤ 65535 then
        Except.ok (if some v = defaultPort sch then none else some v)
      else Except.error ParseError.invalidPort
    else Except.error ParseError.invalidPort

/-- Build a hierarchical URL from scheme, host, port and the
path-query-fragment run following the authority. -/
def mkHierUrl (sch : String) (host : Option Host) (port : Option Nat) (rest : List Char) : Url :=
  let pqf := splitPQF rest
  let segs : List String :=
    match pqf.pathCs with
    | [] => [""]
    | _ => (splitOnChar '/' (pqf.pathCs.drop 1)).map (fun x => String.mk x)
  { scheme := sch, host := host, port := port,
    path := serializePath (normSegments [] segs),
    query := pqf.query, fragment := pqf.fragment }

/-- Build a hostless URL with an absolute (slash-led) path. -/
def mkPathUrl (sch : String) (rest : List Char) : Url :=
  let pqf := splitPQF rest
  { scheme := sch, host := none, port := none,
    path := serializePath (normSegments [] ((splitOnChar '/' (pqf.pathCs.drop 1)).map (fun x => String.mk x))),
    query := pqf.query, fragment := pqf.fragment }

/-- Build a cannot-be-a-base URL: the path is the raw run before any
query or fragment, with no dot normalisation (e.g. `mailto:x`). -/
def mkCannotBeABaseUrl (sch : String) (rest : List Char) : Url :=
  let pqf := splitPQF rest
  { scheme := sch, host := none, port := none,
    path := String.mk pqf.pathCs, query := pqf.query, fragment := pqf.fragment }

/-- Parse the part of a hierarchical URL following `scheme://` (with
the slashes already consumed): authority, then path, query and
fragment.  Userinfo before `@` is dropped, the port is split off after
`:`.  An empty host is an error for special schemes other than
`file`. -/
def authorityParseCore (sch : String) (hostCs portCs rest : List Char) : Except ParseError Url :=
  match parsePort sch portCs with
  | Except.error e => Except.error e
  | Except.ok port =>
    if hostCs = [] then
      if sch = "file" then Except.ok (mkHierUrl sch none none rest)
      else Except.error ParseError.emptyHost
    else
      match parseHost hostCs with
      | Except.error e => Except.error e
      | Except.ok host => Except.ok (mkHierUrl sch (some host) port rest)

/-- `authorityParseCore` applied to the pieces cut out of the input:
the authority run, the host/port split of its part after the last `@`,
and the remaining path-query-fragment run. -/
def authorityParse (sch : String) (cs : List Char) : Except ParseError Url :=
  let auth := cs.takeWhile (fun c => c ≠ '/' ∧ c ≠ '?' ∧ c ≠ '#')
  let rest := cs.drop auth.length
  let hostport := (splitOnChar '@' auth).getLastD []
  let hostCs := hostport.takeWhile (fun c => c ≠ ':')
  let portCs := hostport.dropWhile (fun c => c ≠ ':')
  authorityParseCore sch hostCs portCs rest

/-- Parse the remainder of a URL once a scheme has been found, with no
base (or a base of a different scheme).  Special schemes slurp any run
of slashes and then read an authority; non-special schemes read an
authority only after `//`, an absolute path after `/`, and otherwise a
cannot-be-a-base path. -/
def parseAfterScheme (sch : String) (rest : List Char) : Except ParseError Url :=
  if sch ∈ specialSchemes then
    authorityParse sch (rest.dropWhile (fun c => c = '/' ∨ c = '\\'))
  else if rest.take 2 = ['/', '/'] then
    authorityParse sch (rest.drop 2)
  else
    match rest with
    | '/' :: _ => Except.ok (mkPathUrl sch rest)
    | _ => Except.ok (mkCannotBeABaseUrl sch rest)

/-- Models `url::Url::parse`: clean the input, require a scheme
(failing with `RelativeUrlWithoutBase` otherwise), then parse the
remainder. -/
def parseUrl (input : String) : Except ParseError Url :=
  let cs := cleanInput input.toList
  match schemeSplit cs with
  | some (sch, rest) => parseAfterScheme sch rest
  | none => Except.error ParseError.relativeUrlWithoutBase

/-- Replace the base's path by an absolute (slash-led) path reference,
keeping scheme, host and port. -/
def withAbsolutePath (base : Url) (cs : List Char) : Url :=
  let pqf := splitPQF cs
  { base with
    path := serializePath (normSegments [] ((splitOnChar '/' (pqf.pathCs.drop 1)).map (fun x => String.mk x))),
    query := pqf.query, fragment := pqf.fragment }

/-- Replace the base's query and fragment by a `?`-led reference. -/
def withQuery (base : Url) (cs : List Char) : Url :=
  let pqf := splitPQF cs
  { base with query := pqf.query, fragment := pqf.fragment }

/-- Merge a relative path reference into the base: drop the last
segment of the base path, append the reference's segments, and
normalise dot segments. -/
def withMergedPath (base : Url) (cs : List Char) : Url :=
  let pqf := splitPQF cs
  let merged := (pathSegsOf base.path).dropLast ++ (splitOnChar '/' pqf.pathCs).map (fun x => String.mk x)
  { base with path := serializePath (normSegments [] merged), query := pqf.query, fragment := pqf.fragment }

/-- Resolve a scheme-less (relative) reference against a base URL, per
the WHATWG relative/relative-slash/path states. -/
def relativeResolve (base : Url) (cs : List Char) : Except ParseError Url :=
  match cs with
  | [] => Except.ok { base with fragment := none }
  | '#' :: f => Except.ok { base with fragment := some (String.mk f) }
  | c :: rest =>
    if base.host = none ∧ ¬ (base.path.toList.take 1 = ['/']) then
      Except.error ParseError.relativeUrlWithCannotBeABaseBase
    else if c = '/' ∧ rest.take 1 = ['/'] then
      authorityParse base.scheme (rest.drop 1)
    else if c = '/' then
      Except.ok (withAbsolutePath base (c :: rest))
    else if c = '?' then
      Except.ok (withQuery base (c :: rest))
    else
      Except.ok (withMergedPath base (c :: rest))

/-- Models `url::Url::join` (WHATWG URL parsing with a base): a
reference with a special scheme equal to the base's scheme is treated
as relative unless it carries `//`; any other scheme'd reference parses
on its own; a scheme-less reference resolves relatively. -/
def joinUrl (base : Url) (input : String) : Except ParseError Url :=
  match schemeSplit (cleanInput input.toList) with
  | some (sch, rest) =>
    if sch ∈ specialSchemes ∧ sch = base.scheme then
      if rest.take 2 = ['/', '/'] then
        authorityParse sch (rest.dropWhile (fun c => c = '/' ∨ c = '\\'))
      else
        relativeResolve base rest
    else
      parseAfterScheme sch rest
  | none => relativeResolve base (cleanInput input.toList)

/-- `Url::domain()`: the host name when the host is a domain, `none`
when there is no host or the host is an IP address. -/
def Url.domain (u : Url) : Option String :=
  match u.host with
  | some (Host.domain d) => some d
  | _ => none

/-- Serialisation of a host. -/
def Host.to_string : Host → String
  | Host.domain d => d
  | Host.ipv4 a b c d => toString a ++ "." ++ toString b ++ "." ++ toString c ++ "." ++ toString d

/-- `Url::to_string()` / `as_str()`: scheme, `//` + host (+ `:port`)
when a host is present, path, `?query`, `#fragment`. -/
def Url.to_string (u : Url) : String :=
  u.scheme ++ ":" ++
  (match u.host with
   | some h => "//" ++ h.to_string ++ (match u.port with
      | some p => ":" ++ toString p
      | none => "")
   | none => "") ++
  u.path ++
  (match u.query with
   | some q => "?" ++ q
   | none => "") ++
  (match u.fragment with
   | some f => "#" ++ f
   | none => "")

/-! ## The extractor (`src/extractor.rs`) -/

/-- The loop body of `get_sub_paths_from_path`: Rust iterates
`for _ in 0..length`, breaking when `parts` is empty, otherwise joining
the current `parts` with `/`, skipping an empty join result without
popping (`continue`), and otherwise pushing the join and popping the
last part. -/
def subPathsLoop : Nat → List String → List String → List String
  | 0, _, paths => paths
  | n + 1, parts, paths =>
    if parts = [] then paths
    else
      let possible_path := joinParts parts
      if possible_path = "" then subPathsLoop n parts paths
      else subPathsLoop n parts.dropLast (paths ++ [possible_path])

/-- `get_sub_paths_from_path`: split the path on `/`, discard empty
segments, then repeatedly record the join of the remaining segments and
drop the last one. -/
def get_sub_paths_from_path (path : String) : List String :=
  let parts := nonEmptySegments path
  subPathsLoop parts.length parts []

/-- Insertion into the `HashSet<String>` of links, modelled as a list
with set semantics: a string already present is not added again. -/
def insertLink (links : List String) (s : String) : List String :=
  if links.contains s then links else links ++ [s]

/-- `add_link_to_set_of_links`: try `url.join(link)`; on success insert
the serialised URL into the set, on failure only log (no change). -/
def add_link_to_set_of_links (link : String) (url : Url) (links : List String) : List String :=
  match joinUrl url link with
  | Except.ok new_url => insertLink links new_url.to_string
  | Except.error _ => links

/-- The body of the `for capture in REGEX.captures_iter(...)` loop of
`get_links`, for a single quote-trimmed match `link`: parse it; on
success skip it when the domains differ, otherwise expand its path; on
the expected relative-URL failure expand the raw text; on any other
failure only log. -/
def processLink (url : Url) (links : List String) (link : String) : List String :=
  match parseUrl link with
  | Except.ok absolute =>
    if absolute.domain ≠ url.domain then links
    else
      (get_sub_paths_from_path absolute.path).foldl
        (fun ls sub_path => add_link_to_set_of_links sub_path url ls) links
  | Except.error e =>
    if containsRelativeMsg e then
      (get_sub_paths_from_path link).foldl
        (fun ls sub_path => add_link_to_set_of_links sub_path url ls) links
    else links

/-- Fold of `processLink` over the raw `capture[0]` texts, each first
stripped of surrounding quotes by `trim_matches`. -/
def getLinksFrom (url : Url) (links : List String) (caps : List String) : List String :=
  caps.foldl (fun ls cap => processLink url ls (trimQuotes cap)) links

/-- The input of `get_links`: a completed `reqwest::Response`, exposing
its effective URL and its body text; obtaining the text can fail
(network/decoding error), which `Except` models. -/
structure Response where
  url : Url
  text : Except String String

/-- `get_links`: obtain the body text — the Rust code calls `.unwrap()`
on it, so a text failure panics, modelled by `none` — then run every
regex capture through the resolver/expander pipeline.  The abstract
`captures` function stands for `REGEX.captures_iter`, producing the
`capture[0]` texts. -/
def get_links (captures : String → List String) (response : Response) : Option (List String) :=
  match response.text with
  | Except.error _ => none
  | Except.ok body => some (getLinksFrom response.url [] (captures body))

/-! ## Derived specification functions -/

/-- The entries a single sub-path list contributes: serialisations of
the successful joins against the base. -/
def expandEntries (url : Url) (ps : List String) : List String :=
  ps.filterMap (fun p => ((joinUrl url p).toOption).map Url.to_string)

/-- The entries one quote-trimmed match contributes to the Result Set,
independently of the accumulated state. -/
def matchEntries (url : Url) (link : String) : List String :=
  match parseUrl link with
  | Except.ok absolute =>
    if absolute.domain ≠ url.domain then []
    else expandEntries url (get_sub_paths_from_path absolute.path)
  | Except.error e =>
    if containsRelativeMsg e then expandEntries url (get_sub_paths_from_path link)
    else []

/-- The origin of a URL: scheme, host and port. -/
def originOf (u : Url) : String × Option Host × Option Nat :=
  (u.scheme, u.host, u.port)

/-- Character class of the third alternative of `LINKFINDER_REGEX`:
ASCII letters, digits, underscore, hyphen and slash. -/
def isG3PathChar (c : Char) : Bool := c.isAlpha ∨ c.isDigit ∨ c = '_' ∨ c = '-' ∨ c = '/'

/-- Literal translation of the third alternative of
`LINKFINDER_REGEX` (a multi-segment relative path ending in a short
file extension): the quoted content decomposes as a non-empty
path-character run, `/`, a non-empty path-character run, `.`, an
extension (1–4 letters or `action`), and an optional suffix introduced
by `?`, `|` or `#` and free of quotes and pipes. -/
def group3Matches (s : String) : Prop :=
  ∃ a b ext tail,
    s.toList = a ++ '/' :: b ++ '.' :: ext ++ tail ∧
    a ≠ [] ∧ a.all isG3PathChar ∧ b ≠ [] ∧ b.all isG3PathChar ∧
    ((ext.all Char.isAlpha ∧ 1 ≤ ext.length ∧ ext.length ≤ 4) ∨ ext = "action".toList) ∧
    (tail = [] ∨ ∃ c t, tail = c :: t ∧ (c = '?' ∨ c = '|' ∨ c = '#') ∧
      t.all (fun x => x ≠ '"' ∧ x ≠ '|' ∧ x ≠ '\''))

/-- The base location `http://localhost/` of the specification's
concrete scenarios. -/
def baseLocalhost : Url :=
  { scheme := "http", host := some (Host.domain "localhost"), port := none,
    path := "/", query := none, fragment := none }

/-- A base location `http://site.com/` with a dotted host, as matched
by the first alternative of `LINKFINDER_REGEX`. -/
def baseSite : Url :=
  { scheme := "http", host := some (Host.domain "site.com"), port := none,
    path := "/", query := none, fragment := none }

/-- A base location `http://127.0.0.1/` whose host is an IP address, so
that `Url::domain()` is `none`. -/
def baseIp : Url :=
  { scheme := "http", host := some (Host.ipv4 127 0 0 1), port := none,
    path := "/", query := none, fragment := none }

/-! ## Lemmas about `joinParts` and `get_sub_paths_from_path` -/

lemma one_le_length_of_ne_empty (s : String) (h : s ≠ "") : 1 ≤ s.length := by
  cases s with
  | mk data =>
    cases data with
    | nil => exact absurd rfl h
    | cons c cs => simp [String.length]

lemma mk_ne_empty_of_ne_nil (cs : List Char) (h : cs ≠ []) : String.mk cs ≠ "" := by
  intro he
  exact h (congrArg String.data he)

lemma joinParts_cons_cons (x y : String) (l : List String) :
    joinParts (x :: y :: l) = x ++ "/" ++ joinParts (y :: l) := rfl

lemma slash_length : ("/" : String).length = 1 := rfl

lemma empty_length : ("" : String).length = 0 := rfl

lemma joinParts_ne_empty (x : String) (l : List String) (hx : x ≠ "") :
    joinParts (x :: l) ≠ "" := by
  cases l with
  | nil => exact hx
  | cons y ys =>
    intro he
    have hlen := congrArg String.length he
    rw [joinParts_cons_cons, String.length_append, String.length_append, slash_length,
      empty_length] at hlen
    have := one_le_length_of_ne_empty x hx
    omega

lemma joinParts_append_singleton :
    ∀ (l : List String) (y : String), l ≠ [] → joinParts (l ++ [y]) = joinParts l ++ "/" ++ y
  | [], _, hl => absurd rfl hl
  | [_], _, _ => rfl
  | x :: z :: zs, y, _ => by
    have h1 : (x :: z :: zs) ++ [y] = x :: ((z :: zs) ++ [y]) := rfl
    have h2 : (z :: zs) ++ [y] = z :: (zs ++ [y]) := rfl
    rw [h1, h2, joinParts_cons_cons, ← h2, joinParts_append_singleton (z :: zs) y (by simp),
      joinParts_cons_cons]
    simp only [String.append_assoc]

lemma joinParts_length_lt_append (l : List String) (y : String) (hy : y ≠ "") :
    (joinParts l).length < (joinParts (l ++ [y])).length := by
  cases l with
  | nil =>
    simpa [joinParts, empty_length] using one_le_length_of_ne_empty y hy
  | cons x xs =>
    rw [joinParts_append_singleton (x :: xs) y (by simp),
      String.length_append, String.length_append, slash_length]
    have := one_le_length_of_ne_empty y hy
    omega

lemma joinParts_take_length_lt (xs : List String) (hxs : ∀ s ∈ xs, s ≠ "") (k : Nat)
    (hk : k < xs.length) :
    (joinParts (xs.take k)).length < (joinParts (xs.take (k + 1))).length := by
  have hget : xs[k]? = some xs[k] := List.getElem?_eq_getElem hk
  have htake : xs.take (k + 1) = xs.take k ++ [xs[k]] := by
    rw [List.take_succ, hget]
    rfl
  rw [htake]
  exact joinParts_length_lt_append _ _ (hxs _ (List.getElem_mem hk))

lemma joinParts_take_length_mono (xs : List String) (hxs : ∀ s ∈ xs, s ≠ "") :
    ∀ {i j : Nat}, i < j → j ≤ xs.length →
      (joinParts (xs.take i)).length < (joinParts (xs.take j)).length := by
  intro i j hij hj
  induction j with
  | zero => omega
  | succ j ih =>
    rcases Nat.lt_succ_iff_lt_or_eq.mp hij with h' | h'
    · exact (ih h' (by omega)).trans (joinParts_take_length_lt xs hxs j (by omega))
    · subst h'
      exact joinParts_take_length_lt xs hxs i (by omega)

lemma nonEmptySegments_ne_empty (path : String) :
    ∀ s ∈ nonEmptySegments path, s ≠ "" := by
  intro s hs
  simp only [nonEmptySegments, List.mem_map, List.mem_filter] at hs
  obtain ⟨cs, ⟨_, hcs⟩, rfl⟩ := hs
  exact mk_ne_empty_of_ne_nil cs (by simpa using hcs)

lemma subPathsLoop_spec :
    ∀ (n : Nat) (parts paths : List String), parts.length = n → (∀ s ∈ parts, s ≠ "") →
      subPathsLoop n parts paths =
        paths ++ (List.range n).reverse.map (fun k => joinParts (parts.take (k + 1))) := by
  intro n
  induction n with
  | zero =>
    intro parts paths _ _
    simp [subPathsLoop]
  | succ n ih =>
    intro parts paths hlen hne
    have hparts : parts ≠ [] := List.ne_nil_of_length_pos (by omega)
    have hhead : joinParts parts ≠ "" := by
      cases parts with
      | nil => exact absurd rfl hparts
      | cons x xs => exact joinParts_ne_empty x xs (hne x (by simp))
    have hstep : subPathsLoop (n + 1) parts paths =
        subPathsLoop n parts.dropLast (paths ++ [joinParts parts]) := by
      simp only [subPathsLoop, if_neg hparts, if_neg hhead]
    rw [hstep, ih parts.dropLast _ (by rw [List.length_dropLast, hlen]; omega)
      (fun s hs => hne s (List.mem_of_mem_dropLast hs))]
    have hdrop : parts.dropLast = parts.take n := by
      rw [List.dropLast_eq_take, hlen]
      norm_num
    have hmap : (List.range n).reverse.map (fun k => joinParts (parts.dropLast.take (k + 1))) =
        (List.range n).reverse.map (fun k => joinParts (parts.take (k + 1))) := by
      apply List.map_congr_left
      intro k hk
      rw [List.mem_reverse, List.mem_range] at hk
      rw [hdrop, List.take_take, Nat.min_eq_left (by omega)]
    have hfull : joinParts (parts.take (n + 1)) = joinParts parts := by
      rw [← hlen, List.take_length]
    rw [hmap]
    rw [List.range_succ, List.reverse_append]
    simp [hfull]

lemma get_sub_paths_eq (P : String) :
    get_sub_paths_from_path P =
      (List.range (nonEmptySegments P).length).reverse.map
        (fun k => joinParts ((nonEmptySegments P).take (k + 1))) :=
  subPathsLoop_spec _ _ _ rfl (nonEmptySegments_ne_empty P)

lemma get_sub_paths_length (P : String) :
    (get_sub_paths_from_path P).length = (nonEmptySegments P).length := by
  rw [get_sub_paths_eq]
  simp

lemma get_sub_paths_nodup (P : String) : (get_sub_paths_from_path P).Nodup := by
  rw [get_sub_paths_eq]
  rw [← List.nodup_reverse, ← List.map_reverse, List.reverse_reverse]
  apply List.Nodup.map_on _ (List.nodup_range _)
  intro i hi j hj hEq
  rw [List.mem_range] at hi hj
  by_contra hne
  rcases Nat.lt_or_ge i j with h | h
  · have := joinParts_take_length_mono (nonEmptySegments P) (nonEmptySegments_ne_empty P)
      (show i + 1 < j + 1 by omega) (by omega)
    rw [hEq] at this
    omega
  · have := joinParts_take_length_mono (nonEmptySegments P) (nonEmptySegments_ne_empty P)
      (show j + 1 < i + 1 by omega) (by omega)
    rw [hEq] at this
    omega

lemma get_sub_paths_mem (P : String) (s : String) :
    s ∈ get_sub_paths_from_path P ↔
      ∃ k, 1 ≤ k ∧ k ≤ (nonEmptySegments P).length ∧
        s = joinParts ((nonEmptySegments P).take k) := by
  rw [get_sub_paths_eq]
  simp only [List.mem_map, List.mem_reverse, List.mem_range]
  constructor
  · rintro ⟨k, hk, rfl⟩
    exact ⟨k + 1, by omega, by omega, rfl⟩
  · rintro ⟨k, hk1, hk2, rfl⟩
    refine ⟨k - 1, by omega, ?_⟩
    have hk : k - 1 + 1 = k := by omega
    rw [hk]

/-! ## Membership and skip lemmas for the link pipeline -/

lemma mem_insertLink (l : List String) (s x : String) :
    x ∈ insertLink l s ↔ x ∈ l ∨ x = s := by
  unfold insertLink
  by_cases h : l.contains s
  · rw [if_pos h]
    have hs : s ∈ l := List.elem_iff.mp h
    constructor
    · exact fun hx => Or.inl hx
    · rintro (hx | rfl)
      · exact hx
      · exact hs
  · rw [if_neg h]
    simp [List.mem_append]

lemma mem_add_link (p : String) (url : Url) (l : List String) (x : String) :
    x ∈ add_link_to_set_of_links p url l ↔
      x ∈ l ∨ ∃ u, joinUrl url p = Except.ok u ∧ x = u.to_string := by
  unfold add_link_to_set_of_links
  cases hj : joinUrl url p with
  | ok u => simp [mem_insertLink, hj]
  | error e => simp [hj]

lemma add_link_error (p : String) (url : Url) (l : List String) (e : ParseError)
    (hj : joinUrl url p = Except.error e) :
    add_link_to_set_of_links p url l = l := by
  unfold add_link_to_set_of_links
  rw [hj]

lemma expandEntries_cons (url : Url) (p : String) (ps : List String) :
    expandEntries url (p :: ps) =
      match joinUrl url p with
      | Except.ok u => u.to_string :: expandEntries url ps
      | Except.error _ => expandEntries url ps := by
  cases hj : joinUrl url p with
  | ok u => simp [expandEntries, hj, Except.toOption]
  | error e => simp [expandEntries, hj, Except.toOption]

lemma mem_fold_add (url : Url) (ps : List String) :
    ∀ (l : List String) (x : String),
      x ∈ ps.foldl (fun ls sub_path => add_link_to_set_of_links sub_path url ls) l ↔
        x ∈ l ∨ x ∈ expandEntries url ps := by
  induction ps with
  | nil => simp [expandEntries]
  | cons p ps ih =>
    intro l x
    rw [List.foldl_cons, ih, mem_add_link, expandEntries_cons]
    cases hj : joinUrl url p with
    | ok u => simp [hj]; tauto
    | error e => simp [hj]

lemma mem_processLink (url : Url) (l : List String) (c x : String) :
    x ∈ processLink url l c ↔ x ∈ l ∨ x ∈ matchEntries url c := by
  unfold processLink matchEntries
  cases hp : parseUrl c with
  | ok absolute =>
    by_cases hd : absolute.domain ≠ url.domain
    · simp [hd]
    · simp [hd, mem_fold_add]
  | error e =>
    by_cases hr : containsRelativeMsg e
    · simp [hr, mem_fold_add]
    · simp [hr]

lemma mem_getLinksFrom (url : Url) (caps : List String) :
    ∀ (l : List String) (x : String),
      x ∈ getLinksFrom url l caps ↔
        x ∈ l ∨ ∃ c ∈ caps, x ∈ matchEntries url (trimQuotes c) := by
  induction caps with
  | nil => simp [getLinksFrom]
  | cons c cs ih =>
    intro l x
    unfold getLinksFrom at ih ⊢
    rw [List.foldl_cons, ih, mem_processLink]
    simp only [List.mem_cons]
    constructor
    · rintro ((hl | hc) | ⟨c', hc', hx⟩)
      · exact Or.inl hl
      · exact Or.inr ⟨c, Or.inl rfl, hc⟩
      · exact Or.inr ⟨c', Or.inr hc', hx⟩
    · rintro (hl | ⟨c', (rfl | hc'), hx⟩)
      · exact Or.inl (Or.inl hl)
      · exact Or.inl (Or.inr hx)
      · exact Or.inr ⟨c', hc', hx⟩

lemma processLink_skip_other_error (url : Url) (l : List String) (c : String) (e : ParseError)
    (hp : parseUrl c = Except.error e) (hr : containsRelativeMsg e = false) :
    processLink url l c = l := by
  simp [processLink, hp, hr]

lemma processLink_skip_diff_domain (url : Url) (l : List String) (c : String) (absolute : Url)
    (hp : parseUrl c = Except.ok absolute) (hd : absolute.domain ≠ url.domain) :
    processLink url l c = l := by
  simp [processLink, hp, hd]

lemma getLinksFrom_append (url : Url) (l : List String) (cs1 cs2 : List String) :
    getLinksFrom url l (cs1 ++ cs2) = getLinksFrom url (getLinksFrom url l cs1) cs2 := by
  unfold getLinksFrom
  rw [List.foldl_append]

lemma mem_expandEntries (url : Url) (ps : List String) (x : String) :
    x ∈ expandEntries url ps ↔
      ∃ p ∈ ps, ∃ u, joinUrl url p = Except.ok u ∧ x = u.to_string := by
  unfold expandEntries
  rw [List.mem_filterMap]
  constructor
  · rintro ⟨p, hp, hx⟩
    cases hj : joinUrl url p with
    | ok u =>
      rw [hj] at hx
      simp [Except.toOption] at hx
      exact ⟨p, hp, u, hj, hx.symm⟩
    | error e =>
      rw [hj] at hx
      simp [Except.toOption] at hx
  · rintro ⟨p, hp, u, hj, rfl⟩
    exact ⟨p, hp, by simp [hj, Except.toOption]⟩

lemma mem_matchEntries_exists (url : Url) (c x : String)
    (hx : x ∈ matchEntries url c) :
    ∃ p u, joinUrl url p = Except.ok u ∧ x = u.to_string := by
  unfold matchEntries at hx
  have hexp : ∀ ps, x ∈ expandEntries url ps →
      ∃ p u, joinUrl url p = Except.ok u ∧ x = u.to_string := by
    intro ps hmem
    rw [mem_expandEntries] at hmem
    obtain ⟨p, _, u, hj, hx⟩ := hmem
    exact ⟨p, u, hj, hx⟩
  cases hp : parseUrl c with
  | ok absolute =>
    rw [hp] at hx
    by_cases hd : absolute.domain ≠ url.domain
    · simp [hd] at hx
    · simp only [hd, if_false] at hx
      exact hexp _ (by simpa [hd] using hx)
  | error e =>
    rw [hp] at hx
    by_cases hr : containsRelativeMsg e
    · exact hexp _ (by simpa [hr] using hx)
    · simp [hr] at hx

/-! ## The scheme of a joined URL -/

lemma schemeSplit_ne_empty (cs : List Char) (sch : String) (rest : List Char)
    (h : schemeSplit cs = some (sch, rest)) : sch ≠ "" := by
  cases cs with
  | nil => simp [schemeSplit] at h
  | cons c tl =>
    simp only [schemeSplit] at h
    by_cases hc : isSchemeStart c = true
    · rw [if_pos hc] at h
      have hcc : isSchemeChar c = true := by
        simp only [isSchemeStart, decide_eq_true_eq] at hc
        simp [isSchemeChar, hc]
      rw [List.takeWhile_cons, if_pos hcc] at h
      split at h
      · simp only [Option.some.injEq, Prod.mk.injEq] at h
        rw [← h.1]
        exact mk_ne_empty_of_ne_nil _ (by simp)
      · simp at h
    · rw [if_neg hc] at h
      simp at h

lemma mkHierUrl_scheme (sch : String) (host : Option Host) (port : Option Nat)
    (rest : List Char) : (mkHierUrl sch host port rest).scheme = sch := rfl

lemma authorityParseCore_scheme (sch : String) (hostCs portCs rest : List Char) (u : Url)
    (h : authorityParseCore sch hostCs portCs rest = Except.ok u) : u.scheme = sch := by
  unfold authorityParseCore at h
  cases hpp : parsePort sch portCs with
  | error e =>
    rw [hpp] at h
    simp at h
  | ok port =>
    rw [hpp] at h
    by_cases hh : hostCs = []
    · by_cases hf : sch = "file"
      · simp only [hh, hf, if_pos, if_true] at h
        simp only [Except.ok.injEq] at h
        rw [← h, mkHierUrl_scheme]
        exact hf.symm
      · simp [hh, hf] at h
    · simp only [hh, if_false, ite_false] at h
      cases hph : parseHost hostCs with
      | error e =>
        rw [hph] at h
        simp at h
      | ok host =>
        rw [hph] at h
        simp only [Except.ok.injEq] at h
        rw [← h, mkHierUrl_scheme]

lemma authorityParse_scheme (sch : String) (cs : List Char) (u : Url)
    (h : authorityParse sch cs = Except.ok u) : u.scheme = sch :=
  authorityParseCore_scheme _ _ _ _ _ h

lemma parseAfterScheme_scheme (sch : String) (rest : List Char) (u : Url)
    (h : parseAfterScheme sch rest = Except.ok u) : u.scheme = sch := by
  unfold parseAfterScheme at h
  split at h
  · exact authorityParse_scheme _ _ _ h
  · split at h
    · exact authorityParse_scheme _ _ _ h
    · split at h
      · simp only [Except.ok.injEq] at h
        rw [← h]
        rfl
      · simp only [Except.ok.injEq] at h
        rw [← h]
        rfl

lemma relativeResolve_scheme (base : Url) (cs : List Char) (u : Url)
    (h : relativeResolve base cs = Except.ok u) : u.scheme = base.scheme := by
  unfold relativeResolve at h
  split at h
  · simp only [Except.ok.injEq] at h
    rw [← h]
  · simp only [Except.ok.injEq] at h
    rw [← h]
  · split at h
    · simp at h
    · split at h
      · exact authorityParse_scheme _ _ _ h
      · split at h
        · simp only [Except.ok.injEq] at h
          rw [← h]
          rfl
        · split at h
          · simp only [Except.ok.injEq] at h
            rw [← h]
            rfl
          · simp only [Except.ok.injEq] at h
            rw [← h]
            rfl

lemma joinUrl_scheme_ne_empty (base : Url) (s : String) (u : Url)
    (hb : base.scheme ≠ "") (h : joinUrl base s = Except.ok u) : u.scheme ≠ "" := by
  unfold joinUrl at h
  split at h
  · rename_i sch rest hs
    split at h
    · split at h
      · rw [authorityParse_scheme _ _ _ h]
        exact schemeSplit_ne_empty _ _ _ hs
      · rw [relativeResolve_scheme _ _ _ h]
        exact hb
    · rw [parseAfterScheme_scheme _ _ _ h]
      exact schemeSplit_ne_empty _ _ _ hs
  · rw [relativeResolve_scheme _ _ _ h]
    exact hb

/-! ## Claim theorems -/

/-- Claim C3: for every path string whose split on `/` yields `N ≥ 1`
non-empty segments, `get_sub_paths_from_path` returns exactly `N`
pairwise-distinct strings, namely for each `k` with `1 ≤ k ≤ N` the
join of the first `k` non-empty segments with `/`. -/
theorem get_sub_paths_exactly_n_distinct (P : String)
    (hN : 1 ≤ (nonEmptySegments P).length) :
    (get_sub_paths_from_path P).length = (nonEmptySegments P).length ∧
    (get_sub_paths_from_path P).Nodup ∧
    (∀ s, s ∈ get_sub_paths_from_path P ↔
      ∃ k, 1 ≤ k ∧ k ≤ (nonEmptySegments P).length ∧
        s = joinParts ((nonEmptySegments P).take k)) :=
  ⟨get_sub_paths_length P, get_sub_paths_nodup P, fun s => get_sub_paths_mem P s⟩

/-- Witness for C3 at the concrete path `homepage/assets/img`. -/
theorem get_sub_paths_exactly_n_distinct_witness :
    1 ≤ (nonEmptySegments "homepage/assets/img").length ∧
    ((get_sub_paths_from_path "homepage/assets/img").length =
        (nonEmptySegments "homepage/assets/img").length ∧
      (get_sub_paths_from_path "homepage/assets/img").Nodup ∧
      (∀ s, s ∈ get_sub_paths_from_path "homepage/assets/img" ↔
        ∃ k, 1 ≤ k ∧ k ≤ (nonEmptySegments "homepage/assets/img").length ∧
          s = joinParts ((nonEmptySegments "homepage/assets/img").take k))) :=
  ⟨by decide, get_sub_paths_exactly_n_distinct "homepage/assets/img" (by decide)⟩

/-- Claim C1 (amended): the filter compares `Url::domain()`, not the
full origin: a raw match that parses as an absolute URL whose
`domain()` differs from the base's `domain()` contributes no entry —
removing it from the capture list leaves the Result Set unchanged. -/
theorem different_domain_match_contributes_nothing (url : Url) (s : List String)
    (cs1 cs2 : List String) (cap : String) (absolute : Url)
    (hp : parseUrl (trimQuotes cap) = Except.ok absolute)
    (hd : absolute.domain ≠ url.domain) :
    getLinksFrom url s (cs1 ++ cap :: cs2) = getLinksFrom url s (cs1 ++ cs2) := by
  rw [getLinksFrom_append, getLinksFrom_append]
  unfold getLinksFrom
  rw [List.foldl_cons, processLink_skip_diff_domain _ _ _ _ hp hd]

/-- Witness for C1 (amended): the off-domain match `http://evil.example/x.js`
contributes nothing even with surrounding matches. -/
theorem different_domain_match_contributes_nothing_witness :
    parseUrl (trimQuotes "\"http://evil.example/x.js\"") =
      Except.ok { scheme := "http", host := some (Host.domain "evil.example"), port := none,
                  path := "/x.js", query := none, fragment := none } ∧
    (Url.domain { scheme := "http", host := some (Host.domain "evil.example"), port := none,
                  path := "/x.js", query := none, fragment := none } ≠ baseLocalhost.domain) ∧
    getLinksFrom baseLocalhost [] ["\"/login\"", "\"http://evil.example/x.js\"", "\"/admin\""] =
      getLinksFrom baseLocalhost [] ["\"/login\"", "\"/admin\""] :=
  ⟨rfl, by decide,
    different_domain_match_contributes_nothing baseLocalhost [] ["\"/login\""] ["\"/admin\""]
      "\"http://evil.example/x.js\"" _ rfl (by decide)⟩

/-- Claim C1 counterexample: the claim speaks of differing ORIGIN, but
a match with a different origin (scheme `https` against a base with
scheme `http`) and an equal `domain()` is NOT dropped: its derived
entry `http://site.com/x.js` is inserted into the Result Set. -/
theorem cross_origin_match_still_contributes :
    getLinksFrom baseSite [] ["\"https://site.com/x.js\""] = ["http://site.com/x.js"] ∧
    parseUrl (trimQuotes "\"https://site.com/x.js\"") =
      Except.ok { scheme := "https", host := some (Host.domain "site.com"), port := none,
                  path := "/x.js", query := none, fragment := none } ∧
    originOf { scheme := "https", host := some (Host.domain "site.com"), port := none,
               path := "/x.js", query := none, fragment := none } ≠ originOf baseSite :=
  ⟨rfl, rfl, by decide⟩

/-- Claim C2 (amended): once the body text is obtained successfully,
the call always returns a (possibly empty) Result Set: no parse or
join failure of any match or sub-path aborts it. -/
theorem get_links_total_on_ok_body (captures : String → List String) (u : Url) (body : String) :
    ∃ links, get_links captures { url := u, text := Except.ok body } = some links :=
  ⟨getLinksFrom u [] (captures body), rfl⟩

/-- Claim C2 counterexample: the Rust code calls `.unwrap()` on the
body text, so a failure to obtain the text aborts the call (panic,
modelled by `none`) — the call does not return a Result Set. -/
theorem get_links_aborts_on_text_failure :
    get_links (fun _ => []) { url := baseLocalhost, text := Except.error "connection reset" } =
      none := rfl

/-- Claim C6: an unexpected parse failure skips exactly the offending
match, and a join failure skips exactly the offending sub-path; in
both cases every other match/sub-path is still processed, and the
skipped item contributes zero entries. -/
theorem failure_skips_only_offending_item :
    (∀ (url : Url) (s : List String) (cs1 cs2 : List String) (cap : String) (e : ParseError),
      parseUrl (trimQuotes cap) = Except.error e → containsRelativeMsg e = false →
      getLinksFrom url s (cs1 ++ cap :: cs2) = getLinksFrom url s (cs1 ++ cs2)) ∧
    (∀ (url : Url) (l : List String) (ps1 ps2 : List String) (p : String) (e : ParseError),
      joinUrl url p = Except.error e →
      (ps1 ++ p :: ps2).foldl (fun ls sub_path => add_link_to_set_of_links sub_path url ls) l =
        (ps1 ++ ps2).foldl (fun ls sub_path => add_link_to_set_of_links sub_path url ls) l) := by
  constructor
  · intro url s cs1 cs2 cap e hp hr
    rw [getLinksFrom_append, getLinksFrom_append]
    unfold getLinksFrom
    rw [List.foldl_cons, processLink_skip_other_error _ _ _ _ hp hr]
  · intro url l ps1 ps2 p e hj
    rw [List.foldl_append, List.foldl_append, List.foldl_cons, add_link_error _ _ _ _ hj]

/-- Witness for C6: the match `"http://"` fails with `EmptyHost` (not
the relative-URL error) and is skipped, the neighbouring matches
surviving; the sub-path `https:a b` fails to join (invalid domain
character) and is skipped, the neighbouring sub-paths surviving. -/
theorem failure_skips_only_offending_item_witness :
    (parseUrl (trimQuotes "\"http://\"") = Except.error ParseError.emptyHost ∧
      containsRelativeMsg ParseError.emptyHost = false ∧
      getLinksFrom baseLocalhost [] ["\"/login\"", "\"http://\"", "\"/admin\""] =
        getLinksFrom baseLocalhost [] ["\"/login\"", "\"/admin\""]) ∧
    (joinUrl baseLocalhost "https:a b" = Except.error ParseError.invalidDomainCharacter ∧
      ["login", "https:a b", "admin"].foldl
          (fun ls sub_path => add_link_to_set_of_links sub_path baseLocalhost ls) [] =
        ["login", "admin"].foldl
          (fun ls sub_path => add_link_to_set_of_links sub_path baseLocalhost ls) []) :=
  ⟨⟨rfl, rfl,
    failure_skips_only_offending_item.1 baseLocalhost [] ["\"/login\""] ["\"/admin\""]
      "\"http://\"" ParseError.emptyHost rfl rfl⟩,
   ⟨rfl,
    failure_skips_only_offending_item.2 baseLocalhost [] ["login"] ["admin"]
      "https:a b" ParseError.invalidDomainCharacter rfl⟩⟩

lemma to_string_scheme_colon (u : Url) : ∃ tail, u.to_string = u.scheme ++ ":" ++ tail := by
  refine ⟨(match u.host with
      | some h => "//" ++ h.to_string ++ (match u.port with
        | some p => ":" ++ toString p
        | none => "")
      | none => "") ++ u.path ++
    (match u.query with
      | some q => "?" ++ q
      | none => "") ++
    (match u.fragment with
      | some f => "#" ++ f
      | none => ""), ?_⟩
  unfold Url.to_string
  simp only [String.append_assoc]

/-- Claim C4: a raw match failing with the relative-URL-without-a-base
classification is expanded into its ancestor sub-paths, and every
entry it contributes is the serialisation of an absolute URL obtained
by successfully joining one of those sub-paths against the base —
carrying the (non-empty) scheme of a URL, never a bare relative
string. -/
theorem relative_match_entries_joined (url : Url) (cap x : String) (e : ParseError)
    (hb : url.scheme ≠ "")
    (hp : parseUrl (trimQuotes cap) = Except.error e)
    (hr : containsRelativeMsg e = true)
    (hx : x ∈ matchEntries url (trimQuotes cap)) :
    ∃ p ∈ get_sub_paths_from_path (trimQuotes cap),
      ∃ u, joinUrl url p = Except.ok u ∧ x = u.to_string ∧
        u.scheme ≠ "" ∧ ∃ tail, x = u.scheme ++ ":" ++ tail := by
  unfold matchEntries at hx
  rw [hp] at hx
  simp only [hr, if_true] at hx
  rw [mem_expandEntries] at hx
  obtain ⟨p, hpmem, u, hj, rfl⟩ := hx
  exact ⟨p, hpmem, u, hj, rfl, joinUrl_scheme_ne_empty _ _ _ hb hj,
    to_string_scheme_colon u⟩

/-- Witness for C4: the relative match `"/login"` against
`http://localhost/`. -/
theorem relative_match_entries_joined_witness :
    baseLocalhost.scheme ≠ "" ∧
    parseUrl (trimQuotes "\"/login\"") = Except.error ParseError.relativeUrlWithoutBase ∧
    containsRelativeMsg ParseError.relativeUrlWithoutBase = true ∧
    "http://localhost/login" ∈ matchEntries baseLocalhost (trimQuotes "\"/login\"") ∧
    (∃ p ∈ get_sub_paths_from_path (trimQuotes "\"/login\""),
      ∃ u, joinUrl baseLocalhost p = Except.ok u ∧ "http://localhost/login" = u.to_string ∧
        u.scheme ≠ "" ∧ ∃ tail, "http://localhost/login" = u.scheme ++ ":" ++ tail) :=
  ⟨by decide, rfl, rfl, by decide,
    relative_match_entries_joined baseLocalhost "\"/login\"" "http://localhost/login"
      ParseError.relativeUrlWithoutBase (by decide) rfl rfl (by decide)⟩

/-- Claim C5 (amended): every member of the Result Set returned by
`get_links` is the string form of an absolute URL produced by
successfully joining some sub-path against the base location (no other
insertion path exists), hence syntactically valid; it is NOT however
guaranteed same-origin with the base. -/
theorem result_entries_are_joined_urls (captures : String → List String) (response : Response)
    (links : List String) (x : String)
    (hres : get_links captures response = some links)
    (hx : x ∈ links) :
    ∃ p u, joinUrl response.url p = Except.ok u ∧ x = u.to_string := by
  cases ht : response.text with
  | error err =>
    simp only [get_links, ht] at hres
    exact Option.noConfusion hres
  | ok body =>
    simp only [get_links, ht, Option.some.injEq] at hres
    subst hres
    rw [mem_getLinksFrom] at hx
    rcases hx with h | ⟨c, _, hc⟩
    · simp at h
    · exact mem_matchEntries_exists _ _ _ hc

/-- Witness for C5 (amended) on the scenario body `"/login"`. -/
theorem result_entries_are_joined_urls_witness :
    get_links (fun _ => ["\"/login\""]) { url := baseLocalhost, text := Except.ok "" } =
      some ["http://localhost/login"] ∧
    "http://localhost/login" ∈ ["http://localhost/login"] ∧
    (∃ p u, joinUrl baseLocalhost p = Except.ok u ∧ "http://localhost/login" = u.to_string) :=
  ⟨rfl, by decide,
    result_entries_are_joined_urls (fun _ => ["\"/login\""])
      { url := baseLocalhost, text := Except.ok "" } ["http://localhost/login"]
      "http://localhost/login" rfl (by decide)⟩

/-- Claim C5 counterexample: the same-domain match
`http://site.com/mailto:x/y.js` produces the Result Set members
`mailto:x/y.js` and `mailto:x`, whose origin (`mailto` scheme, no
host) is not the base's origin — the "hence same-origin" part of the
claim fails. -/
theorem result_entry_not_same_origin :
    get_links (fun _ => ["\"http://site.com/mailto:x/y.js\""])
        { url := baseSite, text := Except.ok "" } =
      some ["mailto:x/y.js", "mailto:x"] ∧
    parseUrl (trimQuotes "\"http://site.com/mailto:x/y.js\"") =
      Except.ok { scheme := "http", host := some (Host.domain "site.com"), port := none,
                  path := "/mailto:x/y.js", query := none, fragment := none } ∧
    Url.domain { scheme := "http", host := some (Host.domain "site.com"), port := none,
                 path := "/mailto:x/y.js", query := none, fragment := none } = baseSite.domain ∧
    parseUrl "mailto:x" =
      Except.ok { scheme := "mailto", host := none, port := none,
                  path := "x", query := none, fragment := none } ∧
    originOf { scheme := "mailto", host := none, port := none,
               path := "x", query := none, fragment := none } ≠ originOf baseSite :=
  ⟨rfl, rfl, rfl, rfl, by decide⟩

/-- Claim C7: with base `http://localhost/` and a capture list carrying
the quoted fragment `"homepage/assets/img/icons/handshake.svg"` (that
fragment matches the third alternative of `LINKFINDER_REGEX`, so the
Pattern Matcher reports it for any body containing it), the Result Set
contains all five ancestor entries. -/
theorem get_links_handshake_scenario (captures : String → List String) (body : String)
    (links : List String)
    (hcap : "\"homepage/assets/img/icons/handshake.svg\"" ∈ captures body)
    (hres : get_links captures { url := baseLocalhost, text := Except.ok body } = some links) :
    group3Matches "homepage/assets/img/icons/handshake.svg" ∧
    "http://localhost/homepage" ∈ links ∧
    "http://localhost/homepage/assets" ∈ links ∧
    "http://localhost/homepage/assets/img" ∈ links ∧
    "http://localhost/homepage/assets/img/icons" ∈ links ∧
    "http://localhost/homepage/assets/img/icons/handshake.svg" ∈ links := by
  have hg3 : group3Matches "homepage/assets/img/icons/handshake.svg" := by
    refine ⟨"homepage".toList, "assets/img/icons/handshake".toList, "svg".toList, [],
      rfl, by decide, by decide, by decide, by decide, ?_, Or.inl rfl⟩
    exact Or.inl ⟨by decide, by decide, by decide⟩
  simp only [get_links, Option.some.injEq] at hres
  subst hres
  refine ⟨hg3, ?_, ?_, ?_, ?_, ?_⟩
  all_goals
    rw [mem_getLinksFrom]
    exact Or.inr ⟨_, hcap, by decide⟩

/-- Witness for C7 with a singleton capture list. -/
theorem get_links_handshake_scenario_witness :
    ("\"homepage/assets/img/icons/handshake.svg\"" ∈
      (fun (_ : String) => ["\"homepage/assets/img/icons/handshake.svg\""]) "") ∧
    get_links (fun _ => ["\"homepage/assets/img/icons/handshake.svg\""])
        { url := baseLocalhost, text := Except.ok "" } =
      some ["http://localhost/homepage/assets/img/icons/handshake.svg",
            "http://localhost/homepage/assets/img/icons",
            "http://localhost/homepage/assets/img",
            "http://localhost/homepage/assets",
            "http://localhost/homepage"] ∧
    (group3Matches "homepage/assets/img/icons/handshake.svg" ∧
      "http://localhost/homepage" ∈
        ["http://localhost/homepage/assets/img/icons/handshake.svg",
         "http://localhost/homepage/assets/img/icons",
         "http://localhost/homepage/assets/img",
         "http://localhost/homepage/assets",
         "http://localhost/homepage"] ∧
      "http://localhost/homepage/assets" ∈
        ["http://localhost/homepage/assets/img/icons/handshake.svg",
         "http://localhost/homepage/assets/img/icons",
         "http://localhost/homepage/assets/img",
         "http://localhost/homepage/assets",
         "http://localhost/homepage"] ∧
      "http://localhost/homepage/assets/img" ∈
        ["http://localhost/homepage/assets/img/icons/handshake.svg",
         "http://localhost/homepage/assets/img/icons",
         "http://localhost/homepage/assets/img",
         "http://localhost/homepage/assets",
         "http://localhost/homepage"] ∧
      "http://localhost/homepage/assets/img/icons" ∈
        ["http://localhost/homepage/assets/img/icons/handshake.svg",
         "http://localhost/homepage/assets/img/icons",
         "http://localhost/homepage/assets/img",
         "http://localhost/homepage/assets",
         "http://localhost/homepage"] ∧
      "http://localhost/homepage/assets/img/icons/handshake.svg" ∈
        ["http://localhost/homepage/assets/img/icons/handshake.svg",
         "http://localhost/homepage/assets/img/icons",
         "http://localhost/homepage/assets/img",
         "http://localhost/homepage/assets",
         "http://localhost/homepage"]) :=
  ⟨by decide, rfl,
    get_links_handshake_scenario (fun _ => ["\"homepage/assets/img/icons/handshake.svg\""])
      "" _ (by decide) rfl⟩

/-- Claim C8: extraction is deterministic (two runs on the same body
and base give the same Result Set) and idempotent as a set: scanning
the matches twice, or re-running extraction on top of its own output,
changes no membership. -/
theorem extraction_deterministic_idempotent (captures : String → List String)
    (response : Response) (u : Url) (caps : List String) (x : String) :
    get_links captures response = get_links captures response ∧
    (x ∈ getLinksFrom u [] (caps ++ caps) ↔ x ∈ getLinksFrom u [] caps) ∧
    (x ∈ getLinksFrom u (getLinksFrom u [] caps) caps ↔ x ∈ getLinksFrom u [] caps) := by
  refine ⟨rfl, ?_, ?_⟩
  · rw [mem_getLinksFrom, mem_getLinksFrom]
    simp only [List.mem_append]
    constructor
    · rintro (h | ⟨c, (hc | hc), hx⟩)
      · exact Or.inl h
      · exact Or.inr ⟨c, hc, hx⟩
      · exact Or.inr ⟨c, hc, hx⟩
    · rintro (h | ⟨c, hc, hx⟩)
      · exact Or.inl h
      · exact Or.inr ⟨c, Or.inl hc, hx⟩
  · rw [mem_getLinksFrom, mem_getLinksFrom]
    tauto

/-- Claim C9: the filter compares only `Url::domain()`: a parsed match
with equal `domain()` is expanded even when scheme or port differ, and
two IP-address hosts (both `domain() = none`) compare equal, so an
absolute match pointing at a different IP host is not filtered out. -/
theorem domain_only_filter (u : Url) (l : List String) (c : String) (absolute : Url)
    (hp : parseUrl c = Except.ok absolute)
    (hd : absolute.domain = u.domain) :
    processLink u l c =
      (get_sub_paths_from_path absolute.path).foldl
        (fun ls sub_path => add_link_to_set_of_links sub_path u ls) l ∧
    parseUrl "http://localhost:8080/x.js" =
      Except.ok { scheme := "http", host := some (Host.domain "localhost"), port := some 8080,
                  path := "/x.js", query := none, fragment := none } ∧
    matchEntries baseLocalhost "http://localhost:8080/x.js" = ["http://localhost/x.js"] ∧
    matchEntries baseSite "https://site.com/y.js" = ["http://site.com/y.js"] ∧
    parseUrl "http://10.0.0.1/a/b.js" =
      Except.ok { scheme := "http", host := some (Host.ipv4 10 0 0 1), port := none,
                  path := "/a/b.js", query := none, fragment := none } ∧
    Url.domain { scheme := "http", host := some (Host.ipv4 10 0 0 1), port := none,
                 path := "/a/b.js", query := none, fragment := none } = none ∧
    baseIp.domain = none ∧
    matchEntries baseIp "http://10.0.0.1/a/b.js" =
      ["http://127.0.0.1/a/b.js", "http://127.0.0.1/a"] := by
  refine ⟨?_, rfl, rfl, rfl, rfl, rfl, rfl, rfl⟩
  simp [processLink, hp, hd]

/-- Witness for C9 at the port-differing match. -/
theorem domain_only_filter_witness :
    parseUrl "http://localhost:8080/x.js" =
      Except.ok { scheme := "http", host := some (Host.domain "localhost"), port := some 8080,
                  path := "/x.js", query := none, fragment := none } ∧
    Url.domain { scheme := "http", host := some (Host.domain "localhost"), port := some 8080,
                 path := "/x.js", query := none, fragment := none } = baseLocalhost.domain ∧
    processLink baseLocalhost [] "http://localhost:8080/x.js" =
      (get_sub_paths_from_path "/x.js").foldl
        (fun ls sub_path => add_link_to_set_of_links sub_path baseLocalhost ls) [] :=
  ⟨rfl, rfl,
    (domain_only_filter baseLocalhost [] "http://localhost:8080/x.js" _ rfl rfl).1⟩

/-- Claim C10: query/fragment handling is asymmetric: a same-domain
absolute match is expanded from its parsed path only (query and
fragment dropped), while a relative match is expanded from its raw
text, whose segment chain keeps the `?query` text, so the deepest
derived entry retains it. -/
theorem query_fragment_asymmetry (u : Url) (c : String) (absolute : Url) (e : ParseError) :
    (parseUrl c = Except.ok absolute → ¬ absolute.domain ≠ u.domain →
      matchEntries u c = expandEntries u (get_sub_paths_from_path absolute.path)) ∧
    (parseUrl c = Except.error e → containsRelativeMsg e = true →
      matchEntries u c = expandEntries u (get_sub_paths_from_path c)) ∧
    parseUrl "http://localhost/a/b.js?x=1" =
      Except.ok { scheme := "http", host := some (Host.domain "localhost"), port := none,
                  path := "/a/b.js", query := some "x=1", fragment := none } ∧
    matchEntries baseLocalhost "http://localhost/a/b.js?x=1" =
      ["http://localhost/a/b.js", "http://localhost/a"] ∧
    parseUrl "a/b.js?x=1" = Except.error ParseError.relativeUrlWithoutBase ∧
    matchEntries baseLocalhost "a/b.js?x=1" =
      ["http://localhost/a/b.js?x=1", "http://localhost/a"] ∧
    "b.js?x=1" ∈ nonEmptySegments "a/b.js?x=1" := by
  refine ⟨?_, ?_, rfl, rfl, rfl, rfl, by decide⟩
  · intro hp hd
    simp [matchEntries, hp, hd]
  · intro hp hr
    simp [matchEntries, hp, hr]

/-- Witness for C10 at the two `?x=1` matches. -/
theorem query_fragment_asymmetry_witness :
    matchEntries baseLocalhost "http://localhost/a/b.js?x=1" =
      expandEntries baseLocalhost (get_sub_paths_from_path "/a/b.js") ∧
    matchEntries baseLocalhost "a/b.js?x=1" =
      expandEntries baseLocalhost (get_sub_paths_from_path "a/b.js?x=1") :=
  ⟨(query_fragment_asymmetry baseLocalhost "http://localhost/a/b.js?x=1"
      { scheme := "http", host := some (Host.domain "localhost"), port := none,
        path := "/a/b.js", query := some "x=1", fragment := none }
      ParseError.relativeUrlWithoutBase).1 rfl (by decide),
   (query_fragment_asymmetry baseLocalhost "a/b.js?x=1" baseLocalhost
      ParseError.relativeUrlWithoutBase).2.1 rfl rfl⟩

end Extractor
